import Mathlib

/-!
Verification development for the VibeGuard core: a shallow embedding of the
policy rule engine (`src/policy/engine.py`), the stylometry feature extractor
(`src/detection/stylometry.py`), the combined detector's score blending
(`src/detection/detector.py`), and the scan-endpoint aggregation
(`src/api/server.py`), together with theorems about them.

Conventions of the embedding:
* Python strings are modelled as `String` / `List Char`; Python floats are
  modelled as exact rationals `ℚ` (the standard idealization of IEEE floats);
  Python ints as `ℤ`/`ℕ`; `None`-able values as `Option`.
* Python dictionaries with a fixed key set are modelled as structures whose
  fields are `Option`s when the code uses `.get` with a default.
* Regular-expression matching (`re` module) is embedded by a small
  backtracking matcher whose alternative/greedy/lazy priority order follows
  Python's, specialized to the constructs the source patterns actually use.
-/

namespace VibeGuard


/-! ## Python string primitives -/

/-- ASCII whitespace recognized by Python's `str.strip` and by `re`'s `\s`
(restricted to ASCII inputs): space, tab, newline, carriage return,
vertical tab, form feed. -/
def isPySpace (c : Char) : Bool :=
  c = ' ' || c = '\t' || c = '\n' || c = '\r' || c = '\x0b' || c = '\x0c'

/-- Python `s.strip()`: remove leading and trailing whitespace. -/
def pyStrip (s : List Char) : List Char :=
  ((s.dropWhile isPySpace).reverse.dropWhile isPySpace).reverse

/-- Python `s.split('\n')`: split on every newline, keeping empty pieces;
always returns at least one piece. -/
def pySplitNl : List Char → List (List Char)
  | [] => [[]]
  | c :: s =>
    if c = '\n' then [] :: pySplitNl s
    else
      match pySplitNl s with
      | l :: ls => (c :: l) :: ls
      | [] => [[c]]

/-! ## Decimal digits -/

/-- Value of a decimal digit string (most significant first), as the
`int`/`float` conversion reads it. -/
def digitsToNat (ds : List Char) : ℕ :=
  ds.foldl (fun n c => 10 * n + (c.toNat - 48)) 0

/-- Least-significant-digit-first renderer with a fuel bound; the fuel is
decremented once per emitted digit, and `n` has at most `n + 1` digits,
so the zero-fuel branch is unreachable from `natToCharDigits`. -/
def natToCharDigitsAux : ℕ → ℕ → List Char → List Char
  | 0, _, acc => acc
  | fuel + 1, n, acc =>
    if n < 10 then Char.ofNat (48 + n) :: acc
    else natToCharDigitsAux fuel (n / 10) (Char.ofNat (48 + n % 10) :: acc)

/-- Render a natural number in decimal (used to embed Python f-string
formatting of an `int`). -/
def natToCharDigits (n : ℕ) : List Char :=
  natToCharDigitsAux (n + 1) n []

/-! ## Threshold comparison grammar (`PolicyEngine._compare_threshold`) -/

/-- `re` operator-character class `[<>=]`. -/
def isOpChar (c : Char) : Bool := c = '<' || c = '>' || c = '='

/-- Result of `re.match(r'([<>=]+)\s*(\d+(?:\.\d+)?)\s*%?', s)`: the operator
group and the numeric threshold (group 2, as converted by `float`).
`re.match` anchors at the start only, so trailing text (including a `%`)
is irrelevant; the optional fraction is taken only when a `.` is directly
followed by at least one digit. -/
def reMatchThreshold (s : List Char) : Option (List Char × ℚ) :=
  let op := s.takeWhile isOpChar
  if op = [] then none
  else
    let r1 := (s.dropWhile isOpChar).dropWhile isPySpace
    let ds := r1.takeWhile Char.isDigit
    if ds = [] then none
    else
      let r2 := r1.dropWhile Char.isDigit
      let frac : ℚ :=
        match r2 with
        | '.' :: r3 =>
          let fs := r3.takeWhile Char.isDigit
          if fs = [] then 0 else (digitsToNat fs : ℚ) / (10 : ℚ) ^ fs.length
        | _ => 0
      some (op, (digitsToNat ds : ℚ) + frac)

/-- Operator dispatch of `_compare_threshold` (the `if`/`elif` chain on the
operator group); an operator group that is none of the six known forms
falls through to `False`. -/
def opEval (op : List Char) (value threshold : ℚ) : Bool :=
  if op = ['>'] then value > threshold
  else if op = ['>', '='] then value ≥ threshold
  else if op = ['<'] then value < threshold
  else if op = ['<', '='] then value ≤ threshold
  else if op = ['=', '='] || op = ['='] then value = threshold
  else false

/-- `PolicyEngine._compare_threshold(condition, value)`. -/
def compareThreshold (condition : String) (value : ℚ) : Bool :=
  match reMatchThreshold (pyStrip condition.data) with
  | none => false
  | some (op, threshold) => opEval op value threshold

/-- Result of `re.match(r'([<>=]+)\s*(\d+)\s*(second|minute|hour)s?', s)`:
operator group, amount, and the unit's multiplier from the
`multipliers` dict (`second ↦ 1`, `minute ↦ 60`, `hour ↦ 3600`). -/
def reMatchTime (s : List Char) : Option (List Char × ℕ × ℕ) :=
  let op := s.takeWhile isOpChar
  if op = [] then none
  else
    let r1 := (s.dropWhile isOpChar).dropWhile isPySpace
    let ds := r1.takeWhile Char.isDigit
    if ds = [] then none
    else
      let r2 := (r1.dropWhile Char.isDigit).dropWhile isPySpace
      if ("second".data).isPrefixOf r2 then some (op, digitsToNat ds, 1)
      else if ("minute".data).isPrefixOf r2 then some (op, digitsToNat ds, 60)
      else if ("hour".data).isPrefixOf r2 then some (op, digitsToNat ds, 3600)
      else none

/-- `PolicyEngine._compare_time_threshold(condition, seconds)`: parse the
time condition, convert to seconds, then delegate to `_compare_threshold`
on the formatted string `f"{operator} {threshold_seconds}"`. -/
def compareTimeThreshold (condition : String) (seconds : ℤ) : Bool :=
  match reMatchTime (pyStrip condition.data) with
  | none => false
  | some (op, amount, mult) =>
    compareThreshold (String.mk (op ++ ' ' :: natToCharDigits (amount * mult))) (seconds : ℚ)

/-! ## Shell-glob matching (`fnmatch.fnmatch`)

`fnmatch.fnmatch(name, pattern)` normalizes case (a no-op on POSIX) and then
fully matches `name` against the regex produced by `fnmatch.translate`:
`*` becomes "any run of characters, `/` and newlines included", `?` any one
character, `[...]` a character class (leading `!` negates; a `]` right after
the opening `[`/`[!` is a literal; `a-b` is a range, dropped when reversed;
an unterminated `[` is a literal bracket), anchored at both ends. -/

/-- Scan up to the first `]` (the `pattern.find(']', j)` step of
`fnmatch.translate`); `none` when there is no closing bracket. -/
def findClose : List Char → Option (List Char × List Char)
  | [] => none
  | c :: r =>
    if c = ']' then some ([], r)
    else (findClose r).map (fun p => (c :: p.1, p.2))

/-- Parse the body of a bracket class, following `fnmatch.translate`:
returns (negated?, class items, rest of pattern after the `]`). -/
def parseClass (ps : List Char) : Option (Bool × List Char × List Char) :=
  match ps with
  | '!' :: ']' :: r => (findClose r).map (fun p => (true, ']' :: p.1, p.2))
  | '!' :: r => (findClose r).map (fun p => (true, p.1, p.2))
  | ']' :: r => (findClose r).map (fun p => (false, ']' :: p.1, p.2))
  | r => (findClose r).map (fun p => (false, p.1, p.2))

/-- Match one character against the items of a bracket class: `a-b` chunks
are ranges (empty when reversed, as `translate` drops those), everything
else is a literal; a trailing or leading `-` is a literal. -/
def classHas : List Char → Char → Bool
  | [], _ => false
  | a :: '-' :: b :: rest, c => (a ≤ c && c ≤ b) || classHas rest c
  | a :: rest, c => (a = c) || classHas rest c

/-- The matcher for `fnmatch.translate` patterns: pattern characters versus
name characters, anchored at both ends (`\Z`). Every recursive call
strictly shrinks `pattern length + name length`, and the fuel is
decremented once per call, so starting the fuel above that sum (as
`globMatch` does) the zero-fuel branch is unreachable. -/
def globMatchFuel : ℕ → List Char → List Char → Bool
  | 0, _, _ => false
  | fuel + 1, ps0, s =>
    match ps0 with
    | [] => s.isEmpty
    | '*' :: ps =>
      globMatchFuel fuel ps s ||
        (match s with
         | [] => false
         | _ :: s' => globMatchFuel fuel ('*' :: ps) s')
    | '?' :: ps =>
      (match s with
       | [] => false
       | _ :: s' => globMatchFuel fuel ps s')
    | '[' :: ps =>
      (match parseClass ps with
       | some (neg, items, rest) =>
         (match s with
          | [] => false
          | c :: s' =>
            (if neg then !(classHas items c) else classHas items c) &&
              globMatchFuel fuel rest s')
       | none =>
         -- an unterminated `[` is matched as a literal bracket
         (match s with
          | [] => false
          | c :: s' => (c = '[') && globMatchFuel fuel ps s'))
    | p :: ps =>
      (match s with
       | [] => false
       | c :: s' => (p = c) && globMatchFuel fuel ps s')

/-- Anchored glob matching of a name against a translated pattern. -/
def globMatch (ps s : List Char) : Bool :=
  globMatchFuel (ps.length + s.length + 1) ps s

/-- `fnmatch.fnmatch(name, pattern)` (POSIX case normalization is the
identity). -/
def fnmatchB (name pattern : String) : Bool :=
  globMatch pattern.data name.data

/-! ## Policy engine data model (`src/policy/engine.py`) -/

/-- One entry of `CommitAnalysis.files` (`{path, ai_confidence,
lines_changed}` dict, plus the `status` key added by the scan endpoint).
The engine itself reads only `path`. -/
structure FileEntry where
  path : String
  ai_confidence : ℚ
  lines_changed : ℕ
  status : Option String
deriving DecidableEq

/-- One element of `CommitAnalysis.security_issues`; the engine reads only
`issue.get('type')`. -/
structure SecurityIssue where
  type : Option String
  severity : Option String
deriving DecidableEq

/-- The `Action` enum. -/
inductive Action where
  | allow
  | block
  | warn
  | require_reviewers
deriving DecidableEq

/-- The `reviewers` dict of a policy (`{teams, min_approvals}`); `none`
models Python `None` (and the falsy empty dict). -/
structure ReviewersSpec where
  teams : List String
  min_approvals : Option ℤ
deriving DecidableEq

/-- The `Trigger` dataclass. -/
structure Trigger where
  ai_confidence : Option String
  ai_percentage : Option String
  lines_changed : Option String
  review_time : Option String
  paths : List String
  checks : List String
deriving DecidableEq

/-- The `Policy` dataclass (the `override` field is stored by the source but
never read, so it is omitted here). -/
structure Policy where
  name : String
  description : String
  trigger : Trigger
  action : Action
  message : String
  reviewers : Option ReviewersSpec
deriving DecidableEq

/-- The `CommitAnalysis` dataclass. -/
structure CommitAnalysis where
  files : List FileEntry
  max_ai_confidence : ℚ
  ai_percentage : ℚ
  total_lines_changed : ℤ
  review_time_seconds : Option ℤ
  security_issues : List SecurityIssue
deriving DecidableEq

/-- The `Violation` dataclass. -/
structure Violation where
  policy_name : String
  message : String
  files : List String
deriving DecidableEq

/-- The `Warning` dataclass. -/
structure Warning where
  policy_name : String
  message : String
deriving DecidableEq

/-- The `EvaluationResult` dataclass. -/
structure EvaluationResult where
  allowed : Bool
  violations : List Violation
  warnings : List Warning
  required_reviewers : List String
deriving DecidableEq

/-- One threshold conjunct of `_trigger_matches`: Python `if trigger.x:`
skips the condition when it is `None` or the empty string (both falsy). -/
def condHolds (cond : Option String) (value : ℚ) : Bool :=
  match cond with
  | none => true
  | some c => if c.isEmpty then true else compareThreshold c value

/-- `PolicyEngine._trigger_matches`: all present conditions must hold; the
review-time condition additionally requires `review_time_seconds` to be
present (`is not None`). -/
def triggerMatches (t : Trigger) (a : CommitAnalysis) : Bool :=
  condHolds t.ai_confidence (a.max_ai_confidence * 100) &&
  condHolds t.ai_percentage a.ai_percentage &&
  condHolds t.lines_changed (a.total_lines_changed : ℚ) &&
  (match t.review_time, a.review_time_seconds with
   | some c, some s => if c.isEmpty then true else compareTimeThreshold c s
   | _, _ => true)

/-- `PolicyEngine._match_paths`: the paths of the files matching at least one
pattern, in file order (the inner `break` changes only which pattern
matched, not membership). -/
def matchPaths (patterns : List String) (files : List FileEntry) : List String :=
  (files.filter (fun f => patterns.any (fun pat => fnmatchB f.path pat))).map (·.path)

/-- `PolicyEngine._check_secrets`: fails (returns `False`) iff some security
issue has type `hardcoded_secret`. -/
def checkSecrets (a : CommitAnalysis) : Bool :=
  !(a.security_issues.any (fun i => i.type = some "hardcoded_secret"))

/-- `PolicyEngine._check_sql_injection`. -/
def checkSqlInjection (a : CommitAnalysis) : Bool :=
  !(a.security_issues.any (fun i => i.type = some "sql_injection"))

/-- `PolicyEngine._check_xss`. -/
def checkXss (a : CommitAnalysis) : Bool :=
  !(a.security_issues.any (fun i => i.type = some "xss"))

/-- `PolicyEngine._run_checks`: the loop returns `False` on the first known
check that fails and `True` otherwise — names outside the `check_types`
dict are skipped; equivalently, every listed check passes. -/
def runChecks (checks : List String) (a : CommitAnalysis) : Bool :=
  checks.all (fun c =>
    if c = "hardcoded_secrets" then checkSecrets a
    else if c = "sql_injection" then checkSqlInjection a
    else if c = "xss_patterns" then checkXss a
    else true)

/-- The dict returned by `PolicyEngine._evaluate_policy`. -/
structure PolicyEvalOutcome where
  triggered : Bool
  message : String
  matched_files : List String
deriving DecidableEq

/-- `PolicyEngine._evaluate_policy`, with its early returns written as a
decision chain: trigger conditions, then path restriction, then the
security-check gate (checks all passing means not triggered). -/
def evaluatePolicy (p : Policy) (a : CommitAnalysis) : PolicyEvalOutcome :=
  if !(triggerMatches p.trigger a) then ⟨false, p.message, []⟩
  else if !(p.trigger.paths.isEmpty) && (matchPaths p.trigger.paths a.files).isEmpty then
    ⟨false, p.message, []⟩
  else
    let mf := if p.trigger.paths.isEmpty then a.files.map (·.path)
              else matchPaths p.trigger.paths a.files
    if !(p.trigger.checks.isEmpty) && runChecks p.trigger.checks a then
      ⟨false, p.message, mf⟩
    else ⟨true, p.message, mf⟩

/-- The body of the `for policy in self.policies` loop of
`PolicyEngine.evaluate`, acting on the accumulated result. A triggered
`require_reviewers` policy extends the reviewer list only when its
`reviewers` dict is truthy. -/
def evalStep (a : CommitAnalysis) (r : EvaluationResult) (p : Policy) : EvaluationResult :=
  let er := evaluatePolicy p a
  if er.triggered then
    match p.action with
    | .block =>
      { r with allowed := false,
               violations := r.violations ++ [⟨p.name, er.message, er.matched_files⟩] }
    | .warn => { r with warnings := r.warnings ++ [⟨p.name, er.message⟩] }
    | .require_reviewers =>
      match p.reviewers with
      | some rs => { r with required_reviewers := r.required_reviewers ++ rs.teams }
      | none => r
    | .allow => r
  else r

/-- `PolicyEngine.evaluate`: fold the per-policy step over the policy list,
starting from the all-clear result. -/
def evaluate (policies : List Policy) (a : CommitAnalysis) : EvaluationResult :=
  policies.foldl (evalStep a) ⟨true, [], [], []⟩

/-! ## A small backtracking regex engine

Embeds the subset of Python `re` used by `stylometry.py`: character classes,
concatenation, alternation (left-priority), greedy `?`, and greedy/lazy
repetition of single-character classes. The continuation-passing matcher
explores alternatives in Python's priority order, so the first success is
the match Python's engine reports. Character classes are ASCII (`\w`, `\s`
restricted to ASCII, which covers the inputs considered here). -/

inductive RE where
  | eps
  | cls (p : Char → Bool)
  | seq (a b : RE)
  | alt (a b : RE)
  | opt (a : RE)
  | starG (p : Char → Bool)
  | starL (p : Char → Bool)
  | plusG (p : Char → Bool)

/-- Greedy repetition of a one-character class: consume as much as possible,
backtracking one character at a time when the continuation fails. -/
def greedyRun (p : Char → Bool) : List Char → (List Char → Option (List Char)) →
    Option (List Char)
  | [], k => k []
  | c :: s, k => if p c then (greedyRun p s k) <|> k (c :: s) else k (c :: s)

/-- Lazy repetition of a one-character class: try the continuation first,
consuming a character only on failure. -/
def lazyRun (p : Char → Bool) (s : List Char) (k : List Char → Option (List Char)) :
    Option (List Char) :=
  match s with
  | [] => k []
  | c :: s' => k (c :: s') <|> (if p c then lazyRun p s' k else none)

/-- Run a regex against a prefix of `s`, passing the rest to the
continuation; alternatives are tried in Python's priority order. -/
def reRun : RE → List Char → (List Char → Option (List Char)) → Option (List Char)
  | .eps, s, k => k s
  | .cls p, s, k =>
    (match s with
     | [] => none
     | c :: s' => if p c then k s' else none)
  | .seq a b, s, k => reRun a s (fun s' => reRun b s' k)
  | .alt a b, s, k => reRun a s k <|> reRun b s k
  | .opt a, s, k => reRun a s k <|> k s
  | .starG p, s, k => greedyRun p s k
  | .starL p, s, k => lazyRun p s k
  | .plusG p, s, k =>
    (match s with
     | [] => none
     | c :: s' => if p c then greedyRun p s' k else none)

/-- `len(re.findall(pattern, s))`: non-overlapping matches scanning left to
right; scanning resumes at the end of each match (one position further
when the match was empty). The remaining text strictly shrinks at every
recursive call and the fuel drops by one per call, so starting it above
the text length (as `reCountFrom` does) the zero-fuel branch is
unreachable. -/
def reCountFuel (r : RE) : ℕ → List Char → ℕ
  | 0, _ => 0
  | fuel + 1, s =>
    match s with
    | [] => if (reRun r [] some).isSome then 1 else 0
    | c :: rest =>
      match reRun r (c :: rest) some with
      | some s' =>
        if s'.length < (c :: rest).length then 1 + reCountFuel r fuel s'
        else 1 + reCountFuel r fuel rest
      | none => reCountFuel r fuel rest

/-- Count of `re.findall` matches in `s`. -/
def reCountFrom (r : RE) (s : List Char) : ℕ :=
  reCountFuel r (s.length + 1) s

/-- Concatenation of a literal string. -/
def reStr : List Char → RE
  | [] => .eps
  | c :: s => .seq (.cls (fun x => x = c)) (reStr s)

/-- n-ary concatenation. -/
def reSeqs : List RE → RE
  | [] => .eps
  | r :: rs => .seq r (reSeqs rs)

/-- `\w` (ASCII): letters, digits, underscore. -/
def isWordChar (c : Char) : Bool := c.isAlphanum || c = '_'

/-- `\s*`. -/
def ws0 : RE := .starG isPySpace

/-- `\s+`. -/
def ws1 : RE := .plusG isPySpace

/-- `\w+`. -/
def wPlus : RE := .plusG isWordChar

/-! The eleven `boilerplate_patterns` of `StylometryAnalyzer.__init__`. -/

/-- `try\s*\{[\s\S]*?catch` -/
def bp1 : RE := reSeqs [reStr "try".data, ws0, .cls (fun c => c = '\x7b'),
  .starL (fun _ => true), reStr "catch".data]

/-- `if\s*\(\s*!\s*\w+\s*\)\s*\{?\s*return` -/
def bp2 : RE := reSeqs [reStr "if".data, ws0, .cls (fun c => c = '('), ws0,
  .cls (fun c => c = '!'), ws0, wPlus, ws0, .cls (fun c => c = ')'), ws0,
  .opt (.cls (fun c => c = '\x7b')), ws0, reStr "return".data]

/-- `async\s+function\s+\w+\s*\([^)]*\)\s*\{` -/
def bp3 : RE := reSeqs [reStr "async".data, ws1, reStr "function".data, ws1, wPlus,
  ws0, .cls (fun c => c = '('), .starG (fun c => !(c = ')')), .cls (fun c => c = ')'),
  ws0, .cls (fun c => c = '\x7b')]

/-- `const\s+\w+\s*=\s*async\s*\([^)]*\)\s*=>` -/
def bp4 : RE := reSeqs [reStr "const".data, ws1, wPlus, ws0, .cls (fun c => c = '='),
  ws0, reStr "async".data, ws0, .cls (fun c => c = '('), .starG (fun c => !(c = ')')),
  .cls (fun c => c = ')'), ws0, reStr "=>".data]

/-- `export\s+(default\s+)?(function|class|const)` -/
def bp5 : RE := reSeqs [reStr "export".data, ws1,
  .opt (.seq (reStr "default".data) ws1),
  .alt (reStr "function".data) (.alt (reStr "class".data) (reStr "const".data))]

/-- `import\s+\{[^}]+\}\s+from` -/
def bp6 : RE := reSeqs [reStr "import".data, ws1, .cls (fun c => c = '\x7b'),
  .plusG (fun c => !(c = '\x7d')), .cls (fun c => c = '\x7d'), ws1, reStr "from".data]

/-- `@\w+\([^)]*\)` (decorators) -/
def bp7 : RE := reSeqs [.cls (fun c => c = '@'), wPlus, .cls (fun c => c = '('),
  .starG (fun c => !(c = ')')), .cls (fun c => c = ')')]

/-- `public\s+(static\s+)?(async\s+)?\w+\s*\(` (method signatures) -/
def bp8 : RE := reSeqs [reStr "public".data, ws1,
  .opt (.seq (reStr "static".data) ws1), .opt (.seq (reStr "async".data) ws1),
  wPlus, ws0, .cls (fun c => c = '(')]

/-- `private\s+(readonly\s+)?\w+:\s*\w+` (private fields) -/
def bp9 : RE := reSeqs [reStr "private".data, ws1,
  .opt (.seq (reStr "readonly".data) ws1), wPlus, .cls (fun c => c = ':'), ws0, wPlus]

/-- `interface\s+\w+\s*\{` (interface definitions) -/
def bp10 : RE := reSeqs [reStr "interface".data, ws1, wPlus, ws0,
  .cls (fun c => c = '\x7b')]

/-- `type\s+\w+\s*=\s*\{` (type definitions) -/
def bp11 : RE := reSeqs [reStr "type".data, ws1, wPlus, ws0, .cls (fun c => c = '='),
  ws0, .cls (fun c => c = '\x7b')]

/-- `self.boilerplate_patterns`, in source order. -/
def boilerplateRE : List RE := [bp1, bp2, bp3, bp4, bp5, bp6, bp7, bp8, bp9, bp10, bp11]

/-! ## Stylometry feature extraction (`StylometryAnalyzer`) -/

/-- Maximal runs of `\w` characters of the text, in order: exactly the
candidate tokens of `re.findall(r'\b([a-z][a-zA-Z0-9_]*)\b', code)`
before the leading-lowercase restriction (word boundaries make every
match a full word-character run). The unprocessed text strictly shrinks
at every recursive call, so with the fuel starting above the text length
(as `wordRuns` sets it) the zero-fuel branch is unreachable. -/
def wordRunsFuel : ℕ → List Char → List (List Char)
  | 0, _ => []
  | fuel + 1, l =>
    match l with
    | [] => []
    | c :: s =>
      if isWordChar c then
        (c :: s.takeWhile isWordChar) :: wordRunsFuel fuel (s.dropWhile isWordChar)
      else wordRunsFuel fuel s

/-- Maximal word-character runs of the text. -/
def wordRuns (l : List Char) : List (List Char) :=
  wordRunsFuel (l.length + 1) l

/-- The identifiers of `_analyze_naming`: word runs starting with an ASCII
lowercase letter. -/
def identifiers (code : List Char) : List (List Char) :=
  (wordRuns code).filter (fun r =>
    match r with
    | c :: _ => c.isLower
    | [] => false)

/-- Tail of the camelCase regex after the initial `[a-z]+` run:
`([A-Z][a-z]*)*` anchored at the end. Group boundaries are forced (each
group starts at an uppercase letter), so greedy matching is
deterministic and this direct recursion is equivalent. The text strictly
shrinks at every recursive call, so with the fuel starting above the
text length (as `camelGroups` sets it) the zero-fuel branch is
unreachable. -/
def camelGroupsFuel : ℕ → List Char → Bool
  | 0, _ => false
  | fuel + 1, l =>
    match l with
    | [] => true
    | c :: s => c.isUpper && camelGroupsFuel fuel (s.dropWhile Char.isLower)

/-- Full-anchored match of `([A-Z][a-z]*)*`. -/
def camelGroups (l : List Char) : Bool :=
  camelGroupsFuel (l.length + 1) l

/-- `re.match(r'^[a-z]+([A-Z][a-z]*)*$', i)`: a nonempty lowercase run
followed by uppercase-led groups, covering the whole identifier. -/
def isCamelCase (l : List Char) : Bool :=
  !(l.takeWhile Char.isLower).isEmpty && camelGroups (l.dropWhile Char.isLower)

/-- Python `str.islower()` on ASCII word runs: at least one cased character
and no uppercase character. -/
def pyIslower (l : List Char) : Bool :=
  l.any Char.isLower && !(l.any Char.isUpper)

/-- `StylometryAnalyzer._analyze_naming`. -/
def analyzeNaming (code : List Char) : ℚ :=
  let ids := identifiers code
  if ids.length < 5 then 1/2
  else
    let camel := (ids.filter isCamelCase).length
    let snake := (ids.filter (fun i => i.contains '_' && pyIslower i)).length
    ((max camel snake : ℕ) : ℚ) / (ids.length : ℚ)

/-- The `comment_markers` table with its `auto` fallback for unknown
languages. -/
def commentMarkers (language : String) : List (List Char) :=
  if language = "python" then ["#".data]
  else if language = "javascript" then ["//".data, "/*".data]
  else if language = "typescript" then ["//".data, "/*".data]
  else if language = "go" then ["//".data, "/*".data]
  else if language = "java" then ["//".data, "/*".data]
  else ["//".data, "#".data, "/*".data]

/-- `StylometryAnalyzer._analyze_comments`. -/
def analyzeComments (lines : List (List Char)) (language : String) : ℚ :=
  let markers := commentMarkers language
  let commentLines := lines.countP (fun l => markers.any (fun m => m.isPrefixOf (pyStrip l)))
  (commentLines : ℚ) / ((max lines.length 1 : ℕ) : ℚ)

/-- Lengths of the non-blank lines (the filter in `_avg_line_length` and
`_line_length_variance`, identical to the `non_empty_lines` filter of
`analyze` that feeds them). -/
def nonEmptyLengths (lines : List (List Char)) : List ℚ :=
  (lines.filter (fun l => !(pyStrip l).isEmpty)).map (fun l => (l.length : ℚ))

/-- `StylometryAnalyzer._avg_line_length`: `statistics.mean`, or 0 when
there are no non-blank lines. -/
def avgLineLength (lines : List (List Char)) : ℚ :=
  let lengths := nonEmptyLengths lines
  if lengths.isEmpty then 0 else lengths.sum / (lengths.length : ℚ)

/-- The radicand of `StylometryAnalyzer._line_length_variance`: the source
returns `statistics.stdev(lengths)` (0 when fewer than two lines), i.e.
the square root of this sample variance; the root is irrational in
general, so the feature record stores the radicand and theorems speak of
its square root. -/
def lineLengthVarianceSq (lines : List (List Char)) : ℚ :=
  let lengths := nonEmptyLengths lines
  if lengths.length < 2 then 0
  else
    let m := lengths.sum / (lengths.length : ℚ)
    ((lengths.map (fun x => (x - m) ^ 2)).sum) / ((lengths.length : ℚ) - 1)

/-- Leading-whitespace widths of the non-blank lines
(`len(line) - len(line.lstrip())`). -/
def indentWidths (lines : List (List Char)) : List ℕ :=
  (lines.filter (fun l => !(pyStrip l).isEmpty)).map
    (fun l => l.length - (l.dropWhile isPySpace).length)

/-- `StylometryAnalyzer._analyze_indentation`. -/
def analyzeIndentation (lines : List (List Char)) : ℚ :=
  let indents := indentWidths lines
  if indents.isEmpty then 1/2
  else
    let unit : ℕ := if indents.any (fun i => i % 2 == 0 && !(i % 4 == 0)) then 2 else 4
    ((indents.countP (fun i => i % unit == 0)) : ℚ) / (indents.length : ℚ)

/-- Total boilerplate regex hit count
(`sum(len(re.findall(p, code)) for p in self.boilerplate_patterns)`). -/
def boilerplateMatches (code : List Char) : ℕ :=
  (boilerplateRE.map (fun r => reCountFrom r code)).sum

/-- `StylometryAnalyzer._analyze_boilerplate`. -/
def analyzeBoilerplate (code : List Char) : ℚ :=
  let hits := boilerplateMatches code
  let lines := (pySplitNl code).length
  min ((hits : ℚ) / max ((lines : ℚ) / 10) 1) 1

/-- `StylometryAnalyzer._empty_line_ratio`. -/
def emptyLineRatio (lines : List (List Char)) : ℚ :=
  ((lines.countP (fun l => (pyStrip l).isEmpty)) : ℚ) / ((max lines.length 1 : ℕ) : ℚ)

/-- One character step of `_max_nesting_depth`: `(max_depth, current_depth)`;
closing brackets floor the depth at 0 (`max(0, d - 1)` is `ℕ`
subtraction). -/
def nestingStep (mc : ℕ × ℕ) (c : Char) : ℕ × ℕ :=
  if c = '\x7b' || c = '[' || c = '(' then (max mc.1 (mc.2 + 1), mc.2 + 1)
  else if c = '\x7d' || c = ']' || c = ')' then (mc.1, mc.2 - 1)
  else mc

/-- `StylometryAnalyzer._max_nesting_depth`. -/
def maxNestingDepth (code : List Char) : ℕ :=
  (code.foldl nestingStep (0, 0)).1

/-- The `StyleFeatures` dataclass; `line_length_variance_sq` stores the
square of the source's `line_length_variance` (see
`lineLengthVarianceSq`). -/
structure StyleFeatures where
  naming_consistency : ℚ
  comment_density : ℚ
  avg_line_length : ℚ
  line_length_variance_sq : ℚ
  indentation_consistency : ℚ
  boilerplate_ratio : ℚ
  empty_line_ratio : ℚ
  max_nesting_depth : ℕ
deriving DecidableEq

/-- `StylometryAnalyzer.analyze`. -/
def analyze (code : List Char) (language : String) : StyleFeatures :=
  let lines := pySplitNl code
  { naming_consistency := analyzeNaming code
    comment_density := analyzeComments lines language
    avg_line_length := avgLineLength lines
    line_length_variance_sq := lineLengthVarianceSq lines
    indentation_consistency := analyzeIndentation lines
    boilerplate_ratio := analyzeBoilerplate code
    empty_line_ratio := emptyLineRatio lines
    max_nesting_depth := maxNestingDepth code }

/-! ## Combined detector score blending (`CombinedDetector.detect`) -/

/-- `self.weights['stylometry']`. -/
def weightStylometry : ℚ := 45/100

/-- `self.weights['patterns']`. -/
def weightPatterns : ℚ := 45/100

/-- `self.weights['telemetry']` (declared but unused by the blend). -/
def weightTelemetry : ℚ := 10/100

/-- The score combination step of `CombinedDetector.detect` (the
`if telemetry_match` block): `telemetry_match` is the flag computed from
the optional telemetry hash (currently the stubbed `_check_telemetry`,
which always reports no match). -/
def combineScores (style_score pattern_score : ℚ) (telemetry_match : Bool) : ℚ :=
  let telemetry_score : ℚ := if telemetry_match then 1 else 0
  if telemetry_match then
    style_score * (30/100) + pattern_score * (30/100) + telemetry_score * (40/100)
  else
    (style_score * weightStylometry + pattern_score * weightPatterns) /
      (weightStylometry + weightPatterns)

/-! ## Policy configuration parsing (`PolicyEngine._parse_policies`)

The YAML deserialization itself (`yaml.safe_load`) is an external library;
the embedding starts from the already-deserialized list of policy dicts. -/

/-- The `trigger` sub-dict of a policy definition. -/
structure TriggerDict where
  ai_confidence : Option String
  ai_percentage : Option String
  lines_changed : Option String
  review_time : Option String
  checks : Option (List String)
deriving DecidableEq

/-- One policy definition dict as it appears in the configuration document
(the `override` key is stored but never read, so it is omitted). -/
structure PolicyDict where
  name : Option String
  description : Option String
  trigger : Option TriggerDict
  paths : Option (List String)
  action : Option String
  message : Option String
  reviewers : Option ReviewersSpec
deriving DecidableEq

/-- `Action(action_str)` with the `block_on_fail` alias handled first:
`none` models the `ValueError` the enum constructor raises on an unknown
action string. -/
def parseAction (s : String) : Option Action :=
  if s = "block_on_fail" then some .block
  else if s = "allow" then some .allow
  else if s = "block" then some .block
  else if s = "warn" then some .warn
  else if s = "require_reviewers" then some .require_reviewers
  else none

/-- The body of the `for p in policy_dicts` loop of `_parse_policies` for a
single dict: build the trigger from the (possibly missing) `trigger`
sub-dict, then parse the action (`p.get('action', 'allow')`). -/
def parsePolicy (p : PolicyDict) : Option Policy :=
  let td := p.trigger
  let trig : Trigger :=
    { ai_confidence := td.bind (·.ai_confidence)
      ai_percentage := td.bind (·.ai_percentage)
      lines_changed := td.bind (·.lines_changed)
      review_time := td.bind (·.review_time)
      paths := p.paths.getD []
      checks := (td.bind (·.checks)).getD [] }
  (parseAction (p.action.getD "allow")).map (fun act =>
    { name := p.name.getD "unnamed"
      description := p.description.getD ""
      trigger := trig
      action := act
      message := p.message.getD ""
      reviewers := p.reviewers })

/-- `PolicyEngine._parse_policies`: the loop aborts (the constructor raises)
on the first policy whose action string is unknown. -/
def parsePolicies : List PolicyDict → Option (List Policy)
  | [] => some []
  | p :: ps =>
    match parsePolicy p with
    | none => none
    | some pol => (parsePolicies ps).map (pol :: ·)

/-! ## `evaluate_commit` input construction and the scan aggregation -/

/-- The `analysis_dict` argument of `evaluate_commit`, as a dict with
optional keys (each read with `.get` and a default). -/
structure AnalysisDict where
  files : Option (List FileEntry)
  max_ai_confidence : Option ℚ
  ai_percentage : Option ℚ
  total_lines_changed : Option ℤ
  review_time_seconds : Option ℤ
  security_issues : Option (List SecurityIssue)
deriving DecidableEq

/-- The `CommitAnalysis(...)` construction inside `evaluate_commit`: every
field is copied verbatim from the dict (with the `.get` defaults); no
field is recomputed from `files`. -/
def commitAnalysisOfDict (d : AnalysisDict) : CommitAnalysis :=
  { files := d.files.getD []
    max_ai_confidence := d.max_ai_confidence.getD 0
    ai_percentage := d.ai_percentage.getD 0
    total_lines_changed := d.total_lines_changed.getD 0
    review_time_seconds := d.review_time_seconds
    security_issues := d.security_issues.getD [] }

/-- Per-file input of the `/api/v1/scan` aggregation loop: the file's path,
the probability `analyze_code(content)['ai_probability']` reported for
its content, and `len(content.split('\n'))` (always at least 1). -/
structure ScanFile where
  path : String
  ai_probability : ℚ
  lines : ℕ
deriving DecidableEq

/-- The aggregation loop of the `scan` endpoint (`server.py`): builds the
per-file entries with their `ai-generated`/`human-written` status, the
running maximum confidence, the AI line total (files with probability
above 0.7), and the grand line total, then assembles the
`policy_analysis` dict that `evaluate_commit` turns into a
`CommitAnalysis`. -/
def scanAggregate (files : List ScanFile) (review_time : Option ℤ) : CommitAnalysis :=
  let entries : List FileEntry := files.map (fun f =>
    { path := f.path
      ai_confidence := f.ai_probability
      lines_changed := f.lines
      status := some (if f.ai_probability > (7/10 : ℚ) then "ai-generated" else "human-written") })
  let maxConf : ℚ := files.foldl (fun m f => if f.ai_probability > m then f.ai_probability else m) 0
  let totalAi : ℕ := files.foldl (fun t f => if f.ai_probability > (7/10 : ℚ) then t + f.lines else t) 0
  let total : ℕ := files.foldl (fun t f => t + f.lines) 0
  { files := entries
    max_ai_confidence := maxConf
    ai_percentage := if 0 < total then (totalAi : ℚ) / (total : ℚ) * 100 else 0
    total_lines_changed := (total : ℤ)
    review_time_seconds := review_time
    security_issues := [] }

/-- Total changed lines of a file list. -/
def totalLines (files : List FileEntry) : ℕ :=
  (files.map (·.lines_changed)).sum

/-- Changed lines belonging to files classified `ai-generated`. -/
def aiLines (files : List FileEntry) : ℕ :=
  ((files.filter (fun f => f.status = some "ai-generated")).map (·.lines_changed)).sum

/-- The spec's `CommitAnalysis` invariant: when files are present,
`max_ai_confidence` is the maximum of the files' probabilities and
`ai_percentage` is 100 times the share of changed lines belonging to
files classified ai-generated. -/
def commitInvariant (a : CommitAnalysis) : Prop :=
  a.files ≠ [] →
    (a.max_ai_confidence ∈ a.files.map (·.ai_confidence) ∧
     (∀ f ∈ a.files, f.ai_confidence ≤ a.max_ai_confidence) ∧
     a.ai_percentage = (aiLines a.files : ℚ) / (totalLines a.files : ℚ) * 100)

/-! ## Segment-limited glob matching, modelled from the spec -/

/-- Modelled from the spec: the spec describes path-glob matching as
"shell-glob semantics in which `*` matches any run of characters within
a segment and `**` is treated the same as `*`". This matcher implements
that reading (a star never crosses a `/`; adjacent stars collapse;
other characters are literal), to be compared against the source's
`fnmatch`-based matcher. -/
def segGlobMatchFuel : ℕ → List Char → List Char → Bool
  | 0, _, _ => false
  | fuel + 1, ps0, s =>
    match ps0 with
    | [] => s.isEmpty
    | '*' :: ps =>
      segGlobMatchFuel fuel ps s ||
        (match s with
         | [] => false
         | c :: s' => if c = '/' then false else segGlobMatchFuel fuel ('*' :: ps) s')
    | p :: ps =>
      (match s with
       | [] => false
       | c :: s' => (p = c) && segGlobMatchFuel fuel ps s')

/-- Anchored segment-limited glob matching (pattern + name lengths strictly
shrink per call, so the fuel never runs out). -/
def segGlobMatch (ps s : List Char) : Bool :=
  segGlobMatchFuel (ps.length + s.length + 1) ps s

/-- The spec-modelled segment-limited analogue of `fnmatch.fnmatch`. -/
def segFnmatch (name pattern : String) : Bool :=
  segGlobMatch pattern.data name.data

/-- A block policy gated on the `hardcoded_secrets` check, used to exercise
the evaluation theorems on concrete input. -/
def wPolicySecrets : Policy :=
  { name := "security-gate"
    description := ""
    trigger := { ai_confidence := none, ai_percentage := none, lines_changed := none,
                 review_time := none, paths := [], checks := ["hardcoded_secrets"] }
    action := Action.block
    message := ""
    reviewers := none }

/-- A commit analysis with one file and no security issues. -/
def wAnalysisClean : CommitAnalysis :=
  { files := [⟨"src/auth/login.ts", 92/100, 45, none⟩]
    max_ai_confidence := 92/100
    ai_percentage := 69
    total_lines_changed := 65
    review_time_seconds := none
    security_issues := [] }

/-- The same commit analysis with a hardcoded-secret finding. -/
def wAnalysisSecret : CommitAnalysis :=
  { wAnalysisClean with security_issues := [⟨some "hardcoded_secret", some "critical"⟩] }

/-- Whether a named security check fails on the analysis: known checks fail
exactly when an issue of the corresponding type is present
(`hardcoded_secrets ↦ hardcoded_secret`, `sql_injection ↦ sql_injection`,
`xss_patterns ↦ xss`); unknown names never fail. -/
def checkFails (c : String) (a : CommitAnalysis) : Bool :=
  if c = "hardcoded_secrets" then a.security_issues.any (fun i => i.type = some "hardcoded_secret")
  else if c = "sql_injection" then a.security_issues.any (fun i => i.type = some "sql_injection")
  else if c = "xss_patterns" then a.security_issues.any (fun i => i.type = some "xss")
  else false

/-- A trigger carrying a review-time condition and nothing else. -/
def wTriggerReview : Trigger :=
  { ai_confidence := none, ai_percentage := none, lines_changed := none,
    review_time := some "< 2 minutes", paths := [], checks := [] }

/-- A policy whose trigger lists only an unknown check name. -/
def wPolicyUnknownCheck : Policy :=
  { wPolicySecrets with
    trigger := { wPolicySecrets.trigger with checks := ["made_up_check"] } }

/-- The action strings the configuration loader accepts. -/
def knownActions : List String :=
  ["allow", "block", "warn", "require_reviewers", "block_on_fail"]

/-! ## The threshold grammar, specified

`CmpOp`/`TimeUnit` enumerate the operator and unit tokens of the condition
grammar; `renderCond`/`renderTimeCond` build the condition strings of the
grammar, so theorems about them quantify over every string of the form
"operator, space, decimal number, optional %" resp. "operator, space,
decimal number, space, unit". -/

inductive CmpOp where
  | gt
  | ge
  | lt
  | le
  | eqq
  | eq1
deriving DecidableEq

/-- The operator's spelling (`eqq` is `==`, `eq1` the single `=`). -/
def CmpOp.chars : CmpOp → List Char
  | .gt => ['>']
  | .ge => ['>', '=']
  | .lt => ['<']
  | .le => ['<', '=']
  | .eqq => ['=', '=']
  | .eq1 => ['=']

/-- The comparison the operator denotes, `value` on the left. -/
def CmpOp.holds : CmpOp → ℚ → ℚ → Bool
  | .gt, v, t => decide (v > t)
  | .ge, v, t => decide (v ≥ t)
  | .lt, v, t => decide (v < t)
  | .le, v, t => decide (v ≤ t)
  | .eqq, v, t => decide (v = t)
  | .eq1, v, t => decide (v = t)

inductive TimeUnit where
  | second
  | minute
  | hour
deriving DecidableEq

/-- The unit's spelling (singular; the renderer appends the optional `s`). -/
def TimeUnit.chars : TimeUnit → List Char
  | .second => "second".data
  | .minute => "minute".data
  | .hour => "hour".data

/-- The unit's multiplier from the `multipliers` dict. -/
def TimeUnit.mult : TimeUnit → ℕ
  | .second => 1
  | .minute => 60
  | .hour => 3600

/-- A threshold condition string of the grammar: operator, space, decimal
number, optional trailing `%`. -/
def renderCond (op : CmpOp) (n : ℕ) (pct : Bool) : String :=
  String.mk (op.chars ++ ' ' :: natToCharDigits n ++ (if pct then ['%'] else []))

/-- A review-time condition string of the grammar: operator, space, decimal
number, space, unit with plural `s`. -/
def renderTimeCond (op : CmpOp) (n : ℕ) (u : TimeUnit) : String :=
  String.mk (op.chars ++ ' ' :: natToCharDigits n ++ ' ' :: u.chars ++ ['s'])

/-! ## C5: the CommitAnalysis invariant -/

/-- An `evaluate_commit` input dict whose aggregate fields disagree with its
file list: one file with probability 1, but `max_ai_confidence` 0. -/
def cBadAnalysisDict : AnalysisDict :=
  { files := some [⟨"a.ts", 1, 10, none⟩]
    max_ai_confidence := some 0
    ai_percentage := some 0
    total_lines_changed := some 10
    review_time_seconds := none
    security_issues := none }

/-- Scan input with one AI-classified and one human-classified file. -/
def wScanFiles : List ScanFile := [⟨"a.ts", 1, 10⟩, ⟨"b.ts", 0, 30⟩]

/-- A block policy restricted to the auth paths of the example config. -/
def wPolicyAuthPaths : Policy :=
  { wPolicySecrets with
    trigger := { ai_confidence := none, ai_percentage := none, lines_changed := none,
                 review_time := none, paths := ["src/auth/**"], checks := [] } }

/-- An analysis whose only file is outside the auth paths. -/
def wAnalysisDocs : CommitAnalysis :=
  { wAnalysisClean with files := [⟨"docs/readme.md", 0, 5, none⟩] }

/-- A configuration with one policy whose action string is unknown. -/
def wBadConfig : List PolicyDict :=
  [{ name := some "x", description := none, trigger := none, paths := none,
     action := some "frobnicate", message := none, reviewers := none }]

/-! ## Theorems -/

theorem pySplitNl_ne_nil (s : List Char) : pySplitNl s ≠ [] := by
  cases s with
  | nil => simp [pySplitNl]
  | cons c s =>
    simp only [pySplitNl]
    split
    · simp
    · split <;> simp

/-! ## Lemmas about the evaluation fold -/

theorem evalStep_allowed_iff (a : CommitAnalysis) (r : EvaluationResult) (q : Policy) :
    (evalStep a r q).allowed = false ↔
      r.allowed = false ∨ (q.action = Action.block ∧ (evaluatePolicy q a).triggered = true) := by
  unfold evalStep
  cases ht : (evaluatePolicy q a).triggered
  · simp [ht]
  · cases hq : q.action
    case allow => simp [ht, hq]
    case block => simp [ht, hq]
    case warn => simp [ht, hq]
    case require_reviewers => cases hr : q.reviewers <;> simp [ht, hq, hr]

theorem foldl_evalStep_allowed (a : CommitAnalysis) (ps : List Policy)
    (r : EvaluationResult) :
    (ps.foldl (evalStep a) r).allowed = false ↔
      r.allowed = false ∨
        ∃ p ∈ ps, p.action = Action.block ∧ (evaluatePolicy p a).triggered = true := by
  induction ps generalizing r with
  | nil => simp
  | cons q qs ih =>
    rw [List.foldl_cons, ih, evalStep_allowed_iff]
    constructor
    · rintro ((h | hq) | ⟨p, hp, hb, ht⟩)
      · exact Or.inl h
      · exact Or.inr ⟨q, by simp, hq⟩
      · exact Or.inr ⟨p, List.mem_cons_of_mem _ hp, hb, ht⟩
    · rintro (h | ⟨p, hp, hb, ht⟩)
      · exact Or.inl (Or.inl h)
      · rcases List.mem_cons.mp hp with rfl | hp'
        · exact Or.inl (Or.inr ⟨hb, ht⟩)
        · exact Or.inr ⟨p, hp', hb, ht⟩

theorem foldl_evalStep_id (a : CommitAnalysis) (ps : List Policy) (r : EvaluationResult)
    (h : ∀ p ∈ ps, (evaluatePolicy p a).triggered = false) :
    ps.foldl (evalStep a) r = r := by
  induction ps generalizing r with
  | nil => rfl
  | cons q qs ih =>
    rw [List.foldl_cons]
    have hq : (evaluatePolicy q a).triggered = false := h q (by simp)
    have hstep : evalStep a r q = r := by unfold evalStep; simp [hq]
    rw [hstep]
    exact ih _ (fun p hp => h p (List.mem_cons_of_mem _ hp))

/-- C1: `PolicyEngine.evaluate` returns `allowed = false` iff at least one
policy with action `block` is triggered by the analysis; and when no
policy triggers, the result is the initial all-clear one: `allowed =
true` with empty violations, warnings and required reviewers. -/
theorem evaluate_allowed_iff_triggered_block (policies : List Policy) (a : CommitAnalysis) :
    ((evaluate policies a).allowed = false ↔
      ∃ p ∈ policies, p.action = Action.block ∧ (evaluatePolicy p a).triggered = true) ∧
    ((∀ p ∈ policies, (evaluatePolicy p a).triggered = false) →
      evaluate policies a = ⟨true, [], [], []⟩) := by
  constructor
  · rw [evaluate, foldl_evalStep_allowed]
    simp
  · intro h
    exact foldl_evalStep_id a policies _ h

theorem evaluate_allowed_iff_triggered_block_witness :
    evaluate [wPolicySecrets] wAnalysisClean = ⟨true, [], [], []⟩ :=
  (evaluate_allowed_iff_triggered_block [wPolicySecrets] wAnalysisClean).2 (by decide)

theorem runChecks_eq_all_not_fails (checks : List String) (a : CommitAnalysis) :
    runChecks checks a = checks.all (fun c => !(checkFails c a)) := by
  unfold runChecks
  congr 1
  funext c
  unfold checkFails checkSecrets checkSqlInjection checkXss
  split_ifs <;> simp

/-- C2: a policy with a non-empty check list, whose threshold conditions
hold and whose path restriction (if any) retains at least one file,
triggers iff at least one named check fails, where failure of a check is
the presence of a security issue of the corresponding type (see
`checkFails`). -/
theorem policy_with_checks_triggers_iff_fail (p : Policy) (a : CommitAnalysis)
    (hchecks : p.trigger.checks ≠ [])
    (htrig : triggerMatches p.trigger a = true)
    (hpaths : p.trigger.paths = [] ∨ matchPaths p.trigger.paths a.files ≠ []) :
    (evaluatePolicy p a).triggered = true ↔
      ∃ c ∈ p.trigger.checks, checkFails c a = true := by
  unfold evaluatePolicy
  have hpath_cond :
      (!(p.trigger.paths.isEmpty) && (matchPaths p.trigger.paths a.files).isEmpty) = false := by
    rcases hpaths with h | h
    · simp [h]
    · simp [List.isEmpty_iff, h]
  have hne : p.trigger.checks.isEmpty = false := by
    simp [List.isEmpty_iff, hchecks]
  simp only [htrig, hpath_cond, hne, Bool.not_true, Bool.not_false, Bool.true_and,
    Bool.false_eq_true, if_false, runChecks_eq_all_not_fails]
  cases hall : p.trigger.checks.all (fun c => !(checkFails c a))
  · rw [if_neg (by simp)]
    rw [List.all_eq_false] at hall
    obtain ⟨c, hc, hfail⟩ := hall
    simp only [true_iff]
    exact ⟨c, hc, by simpa using hfail⟩
  · rw [if_pos rfl]
    simp only [List.all_eq_true, Bool.not_eq_true'] at hall
    constructor
    · intro h; cases h
    · rintro ⟨c, hc, hfail⟩
      rw [hall c hc] at hfail
      cases hfail

theorem policy_with_checks_triggers_iff_fail_witness :
    (evaluatePolicy wPolicySecrets wAnalysisClean).triggered = false ∧
    (evaluatePolicy wPolicySecrets wAnalysisSecret).triggered = true := by
  constructor
  · have h := policy_with_checks_triggers_iff_fail wPolicySecrets wAnalysisClean
      (by decide) (by decide) (Or.inl rfl)
    cases htr : (evaluatePolicy wPolicySecrets wAnalysisClean).triggered
    · rfl
    · exact absurd (h.mp htr) (by decide)
  · exact (policy_with_checks_triggers_iff_fail wPolicySecrets wAnalysisSecret
      (by decide) (by decide) (Or.inl rfl)).mpr (by decide)

/-- C9: when `review_time_seconds` is absent, a declared `review_time`
condition is skipped entirely: the trigger evaluates exactly as if the
`review_time` condition were not declared, so the policy can still
trigger from its remaining conditions. -/
theorem triggerMatches_skips_review_time_when_absent (t : Trigger) (a : CommitAnalysis)
    (h : a.review_time_seconds = none) :
    triggerMatches t a = triggerMatches { t with review_time := none } a := by
  unfold triggerMatches
  rw [h]
  cases t.review_time <;> rfl

theorem triggerMatches_skips_review_time_when_absent_witness :
    triggerMatches wTriggerReview wAnalysisClean =
      triggerMatches { wTriggerReview with review_time := none } wAnalysisClean :=
  triggerMatches_skips_review_time_when_absent wTriggerReview wAnalysisClean rfl

/-- C10: a check name outside the known set is ignored (treated as
passing), so a policy whose trigger lists only unknown check names has
all checks pass and never triggers. -/
theorem unknown_checks_pass_and_never_trigger (p : Policy) (a : CommitAnalysis)
    (hunknown : ∀ c ∈ p.trigger.checks,
      c ≠ "hardcoded_secrets" ∧ c ≠ "sql_injection" ∧ c ≠ "xss_patterns") :
    runChecks p.trigger.checks a = true ∧
      (p.trigger.checks ≠ [] → (evaluatePolicy p a).triggered = false) := by
  have hrun : runChecks p.trigger.checks a = true := by
    rw [runChecks_eq_all_not_fails]
    simp only [List.all_eq_true]
    intro c hc
    obtain ⟨h1, h2, h3⟩ := hunknown c hc
    simp [checkFails, h1, h2, h3]
  refine ⟨hrun, fun hne => ?_⟩
  unfold evaluatePolicy
  cases htm : triggerMatches p.trigger a
  · simp
  · simp only [Bool.not_true, Bool.false_eq_true, if_false]
    split
    · rfl
    · have hck : p.trigger.checks.isEmpty = false := by simp [List.isEmpty_iff, hne]
      simp [hck, hrun]

theorem unknown_checks_pass_and_never_trigger_witness :
    runChecks wPolicyUnknownCheck.trigger.checks wAnalysisSecret = true ∧
    (evaluatePolicy wPolicyUnknownCheck wAnalysisSecret).triggered = false := by
  have h := unknown_checks_pass_and_never_trigger wPolicyUnknownCheck wAnalysisSecret
    (by decide)
  exact ⟨h.1, h.2 (by decide)⟩

/-- C4: the combined probability of `CombinedDetector.detect` equals
`style*0.30 + pattern*0.30 + 1.0*0.40` when the telemetry corroboration
matched and `(style*0.45 + pattern*0.45)/0.90` otherwise; and for scores
in `[0,1]` (including the all-zero and all-one boundaries) the result is
in `[0,1]`. -/
theorem combineScores_formula_and_range :
    (∀ style pattern : ℚ, ∀ tm : Bool,
      combineScores style pattern tm =
        if tm then style * (30/100) + pattern * (30/100) + 1 * (40/100)
        else (style * (45/100) + pattern * (45/100)) / (90/100)) ∧
    (∀ style pattern : ℚ, ∀ tm : Bool,
      0 ≤ style → style ≤ 1 → 0 ≤ pattern → pattern ≤ 1 →
      0 ≤ combineScores style pattern tm ∧ combineScores style pattern tm ≤ 1) := by
  have hformula : ∀ style pattern : ℚ, ∀ tm : Bool,
      combineScores style pattern tm =
        if tm then style * (30/100) + pattern * (30/100) + 1 * (40/100)
        else (style * (45/100) + pattern * (45/100)) / (90/100) := by
    intro style pattern tm
    cases tm <;>
      simp [combineScores, weightStylometry, weightPatterns] <;> ring
  refine ⟨hformula, ?_⟩
  intro style pattern tm hs0 hs1 hp0 hp1
  rw [hformula]
  cases tm
  · simp only [Bool.false_eq_true, if_false]
    have hhalf : (style * (45/100) + pattern * (45/100)) / ((90:ℚ)/100) =
        (style + pattern) / 2 := by ring
    rw [hhalf]
    constructor
    · positivity
    · rw [div_le_one (by norm_num)]
      linarith
  · simp only [if_true]
    constructor
    · nlinarith
    · nlinarith

theorem combineScores_formula_and_range_witness :
    (0 ≤ combineScores 0 0 true ∧ combineScores 0 0 true ≤ 1) ∧
    (0 ≤ combineScores 1 1 false ∧ combineScores 1 1 false ≤ 1) :=
  ⟨combineScores_formula_and_range.2 0 0 true (by norm_num) (by norm_num)
      (by norm_num) (by norm_num),
   combineScores_formula_and_range.2 1 1 false (by norm_num) (by norm_num)
      (by norm_num) (by norm_num)⟩

/-- C8: loading a policy configuration fails (the `Action` enum constructor
raises at `PolicyEngine` construction time) exactly when some policy's
action string — defaulted to `allow` when missing — is outside the known
set; evaluation itself (`evaluate`) is a total function of the already
parsed policies, so no such configuration error can arise per request. -/
theorem parsePolicies_fails_iff_unknown_action (ps : List PolicyDict) :
    parsePolicies ps = none ↔
      ∃ p ∈ ps, (p.action.getD "allow") ∉ knownActions := by
  induction ps with
  | nil => simp [parsePolicies]
  | cons q qs ih =>
    have hq : parsePolicy q = none ↔ (q.action.getD "allow") ∉ knownActions := by
      unfold parsePolicy parseAction knownActions
      split_ifs with h1 h2 h3 h4 h5 <;> simp_all
    constructor
    · intro h
      unfold parsePolicies at h
      cases hpq : parsePolicy q with
      | none => exact ⟨q, by simp, hq.mp hpq⟩
      | some pol =>
        rw [hpq] at h
        simp only [Option.map_eq_none'] at h
        obtain ⟨p, hp, hbad⟩ := ih.mp h
        exact ⟨p, List.mem_cons_of_mem _ hp, hbad⟩
    · rintro ⟨p, hp, hbad⟩
      unfold parsePolicies
      rcases List.mem_cons.mp hp with rfl | hp'
      · rw [hq.mpr hbad]
      · cases hpq : parsePolicy q with
        | none => rfl
        | some pol => simp [ih.mpr ⟨p, hp', hbad⟩]

/-! ## Helper lemmas: digits, whitespace, take/drop -/

theorem char_digit_isDigit {d : ℕ} (h : d < 10) : (Char.ofNat (48 + d)).isDigit = true := by
  interval_cases d <;> decide

theorem char_digit_toNat {d : ℕ} (h : d < 10) : (Char.ofNat (48 + d)).toNat = 48 + d := by
  interval_cases d <;> decide

theorem isDigit_not_space {c : Char} (h : c.isDigit = true) : isPySpace c = false := by
  rw [Bool.eq_false_iff]
  intro hsp
  unfold isPySpace at hsp
  simp only [Bool.or_eq_true, decide_eq_true_eq] at hsp
  rcases hsp with ((((h1 | h1) | h1) | h1) | h1) | h1 <;>
    (subst h1; exact absurd h (by decide))

theorem isOpChar_not_space {c : Char} (h : isOpChar c = true) : isPySpace c = false := by
  unfold isOpChar at h
  simp only [Bool.or_eq_true, decide_eq_true_eq] at h
  rcases h with (h | h) | h <;> (subst h; decide)

theorem takeWhile_append_all {α : Type} (p : α → Bool) {l1 : List α} (l2 : List α)
    (h : ∀ c ∈ l1, p c = true) :
    (l1 ++ l2).takeWhile p = l1 ++ l2.takeWhile p := by
  induction l1 with
  | nil => simp
  | cons c r ih =>
    rw [List.cons_append, List.takeWhile_cons, if_pos (h c (by simp)), List.cons_append,
      ih (fun x hx => h x (by simp [hx]))]

theorem dropWhile_append_all {α : Type} (p : α → Bool) {l1 : List α} (l2 : List α)
    (h : ∀ c ∈ l1, p c = true) :
    (l1 ++ l2).dropWhile p = l2.dropWhile p := by
  induction l1 with
  | nil => simp
  | cons c r ih =>
    rw [List.cons_append, List.dropWhile_cons, if_pos (h c (by simp)),
      ih (fun x hx => h x (by simp [hx]))]

theorem dropWhile_of_head_false {α : Type} (p : α → Bool) (c : α) (l : List α)
    (h : p c = false) : (c :: l).dropWhile p = c :: l := by
  rw [List.dropWhile_cons, if_neg (by simp [h])]

theorem takeWhile_of_head_false {α : Type} (p : α → Bool) (c : α) (l : List α)
    (h : p c = false) : (c :: l).takeWhile p = [] := by
  rw [List.takeWhile_cons, if_neg (by simp [h])]

theorem dropWhile_eq_self_of_takeWhile_nil {α : Type} (p : α → Bool) {l : List α}
    (h : l.takeWhile p = []) : l.dropWhile p = l := by
  cases l with
  | nil => rfl
  | cons c r =>
    rw [List.takeWhile_cons] at h
    by_cases hc : p c = true
    · rw [if_pos hc] at h
      exact absurd h (by simp)
    · exact dropWhile_of_head_false _ _ _ (by simpa using hc)

/-! ## Decimal rendering round-trip -/

theorem natToCharDigitsAux_append (fuel : ℕ) :
    ∀ (n : ℕ) (acc : List Char),
      natToCharDigitsAux fuel n acc = natToCharDigitsAux fuel n [] ++ acc := by
  induction fuel with
  | zero => intro n acc; simp [natToCharDigitsAux]
  | succ fuel ih =>
    intro n acc
    rw [natToCharDigitsAux, natToCharDigitsAux]
    split_ifs with h
    · simp
    · rw [ih (n / 10) (Char.ofNat (48 + n % 10) :: acc),
        ih (n / 10) [Char.ofNat (48 + n % 10)]]
      simp

theorem digitsToNat_concat (a : List Char) (c : Char) :
    digitsToNat (a ++ [c]) = 10 * digitsToNat a + (c.toNat - 48) := by
  unfold digitsToNat
  rw [List.foldl_append]
  rfl

theorem natToCharDigitsAux_spec (fuel : ℕ) :
    ∀ n, n < 10 ^ (fuel + 1) →
      digitsToNat (natToCharDigitsAux (fuel + 1) n []) = n ∧
      (∀ c ∈ natToCharDigitsAux (fuel + 1) n [], c.isDigit = true) ∧
      natToCharDigitsAux (fuel + 1) n [] ≠ [] := by
  induction fuel with
  | zero =>
    intro n hn
    have h10 : n < 10 := by simpa using hn
    rw [natToCharDigitsAux, if_pos h10]
    refine ⟨?_, ?_, by simp⟩
    · show List.foldl _ 0 [Char.ofNat (48 + n)] = n
      rw [List.foldl_cons, List.foldl_nil, char_digit_toNat h10]
      omega
    · intro c hc
      rw [List.mem_singleton] at hc
      subst hc
      exact char_digit_isDigit h10
  | succ fuel ih =>
    intro n hn
    by_cases h10 : n < 10
    · rw [natToCharDigitsAux, if_pos h10]
      refine ⟨?_, ?_, by simp⟩
      · show List.foldl _ 0 [Char.ofNat (48 + n)] = n
        rw [List.foldl_cons, List.foldl_nil, char_digit_toNat h10]
        omega
      · intro c hc
        rw [List.mem_singleton] at hc
        subst hc
        exact char_digit_isDigit h10
    · rw [natToCharDigitsAux, if_neg h10, natToCharDigitsAux_append]
      have hmod : n % 10 < 10 := Nat.mod_lt _ (by norm_num)
      have hdiv : n / 10 < 10 ^ (fuel + 1) := by
        rw [Nat.div_lt_iff_lt_mul (by norm_num)]
        calc n < 10 ^ (fuel + 1 + 1) := hn
        _ = 10 ^ (fuel + 1) * 10 := by ring
      obtain ⟨h1, h2, h3⟩ := ih (n / 10) hdiv
      refine ⟨?_, ?_, by simp⟩
      · rw [digitsToNat_concat, h1, char_digit_toNat hmod]
        omega
      · intro c hc
        rcases List.mem_append.mp hc with hc | hc
        · exact h2 c hc
        · rw [List.mem_singleton] at hc
          subst hc
          exact char_digit_isDigit hmod

theorem natToCharDigits_spec (n : ℕ) :
    digitsToNat (natToCharDigits n) = n ∧
    (∀ c ∈ natToCharDigits n, c.isDigit = true) ∧ natToCharDigits n ≠ [] := by
  have hn : n < 10 ^ (n + 1) :=
    lt_of_lt_of_le (Nat.lt_pow_self (by norm_num) n)
      (Nat.pow_le_pow_right (by norm_num) (Nat.le_succ n))
  exact natToCharDigitsAux_spec n n hn

/-! ## Parsing rendered condition strings -/

theorem CmpOp.chars_ne_nil (op : CmpOp) : op.chars ≠ [] := by
  cases op <;> decide

theorem CmpOp.chars_opChars (op : CmpOp) : ∀ c ∈ op.chars, isOpChar c = true := by
  cases op <;> decide

theorem exists_concat_of_ne_nil {α : Type} {l : List α} (h : l ≠ []) :
    ∃ (l' : List α) (a : α), l = l' ++ [a] := by
  have hrev : l.reverse ≠ [] := by simpa using h
  obtain ⟨a, t, hrev2⟩ := List.exists_cons_of_ne_nil hrev
  refine ⟨t.reverse, a, ?_⟩
  rw [← List.reverse_reverse l, hrev2]
  simp

theorem pyStrip_build (opc mid : List Char) (last : Char)
    (hopne : opc ≠ []) (hop : ∀ c ∈ opc, isOpChar c = true)
    (hlast : isPySpace last = false) :
    pyStrip (opc ++ ' ' :: (mid ++ [last])) = opc ++ ' ' :: (mid ++ [last]) := by
  obtain ⟨o, opc', rfl⟩ := List.exists_cons_of_ne_nil hopne
  have ho : isPySpace o = false := isOpChar_not_space (hop o (by simp))
  unfold pyStrip
  rw [List.cons_append, dropWhile_of_head_false _ _ _ ho, ← List.cons_append]
  rw [show ((o :: opc') ++ ' ' :: (mid ++ [last])).reverse =
        last :: (mid.reverse ++ ' ' :: (o :: opc').reverse) from by simp]
  rw [dropWhile_of_head_false _ _ _ hlast]
  rw [show (last :: (mid.reverse ++ ' ' :: (o :: opc').reverse)).reverse =
        (o :: opc') ++ ' ' :: (mid ++ [last]) from by simp]

theorem reMatchThreshold_build (opc ds tail : List Char)
    (hopne : opc ≠ []) (hop : ∀ c ∈ opc, isOpChar c = true)
    (hdsne : ds ≠ []) (hds : ∀ c ∈ ds, c.isDigit = true)
    (htake : tail.takeWhile Char.isDigit = [])
    (hfrac : (match tail with
              | '.' :: r3 =>
                let fs := r3.takeWhile Char.isDigit
                if fs = [] then 0 else (digitsToNat fs : ℚ) / (10 : ℚ) ^ fs.length
              | _ => (0 : ℚ)) = 0) :
    reMatchThreshold (opc ++ ' ' :: (ds ++ tail)) =
      some (opc, (digitsToNat ds : ℚ)) := by
  obtain ⟨d, ds', rfl⟩ := List.exists_cons_of_ne_nil hdsne
  have hdd : d.isDigit = true := hds d (by simp)
  have hdsp : isPySpace d = false := isDigit_not_space hdd
  simp only [reMatchThreshold]
  rw [takeWhile_append_all _ _ hop, dropWhile_append_all _ _ hop]
  rw [takeWhile_of_head_false isOpChar ' ' _ (by decide)]
  rw [dropWhile_of_head_false isOpChar ' ' _ (by decide)]
  rw [List.dropWhile_cons, if_pos (show isPySpace ' ' = true from by decide)]
  rw [List.cons_append, dropWhile_of_head_false isPySpace d _ hdsp, ← List.cons_append]
  rw [takeWhile_append_all _ _ hds, htake, List.append_nil]
  rw [dropWhile_append_all _ _ hds, dropWhile_eq_self_of_takeWhile_nil _ htake]
  rw [if_neg hopne]
  simp only [List.append_nil]
  rw [if_neg (show ¬(d :: ds' = []) from by simp)]
  rw [hfrac, add_zero]

theorem opEval_chars (op : CmpOp) (v t : ℚ) : opEval op.chars v t = op.holds v t := by
  cases op <;> rfl

theorem compareThreshold_rendered (op : CmpOp) (n : ℕ) (pct : Bool) (v : ℚ) :
    compareThreshold (renderCond op n pct) v = op.holds v (n : ℚ) := by
  obtain ⟨hval, hdig, hne⟩ := natToCharDigits_spec n
  unfold compareThreshold renderCond
  cases pct
  · obtain ⟨ds', dl, hds⟩ := exists_concat_of_ne_nil hne
    have hdl : dl.isDigit = true := hdig dl (by rw [hds]; simp)
    rw [show (String.mk (op.chars ++ ' ' :: natToCharDigits n ++
          (if false then ['%'] else []))).data =
        op.chars ++ ' ' :: (natToCharDigits n ++ []) from by simp]
    rw [List.append_nil, hds]
    rw [pyStrip_build _ _ _ op.chars_ne_nil op.chars_opChars (isDigit_not_space hdl)]
    rw [show ds' ++ [dl] = (ds' ++ [dl]) ++ ([] : List Char) from by simp]
    rw [reMatchThreshold_build op.chars (ds' ++ [dl]) [] op.chars_ne_nil op.chars_opChars
      (by simp) (by rw [← hds]; exact hdig) rfl rfl]
    rw [← hds, hval]
    exact opEval_chars op v _
  · rw [show (String.mk (op.chars ++ ' ' :: natToCharDigits n ++
          (if true then ['%'] else []))).data =
        op.chars ++ ' ' :: (natToCharDigits n ++ ['%']) from by simp]
    rw [pyStrip_build _ _ _ op.chars_ne_nil op.chars_opChars (by decide)]
    rw [reMatchThreshold_build op.chars (natToCharDigits n) ['%'] op.chars_ne_nil
      op.chars_opChars hne hdig (by decide) (by decide)]
    rw [hval]
    exact opEval_chars op v _

theorem reMatchTime_build (opc ds tail : List Char)
    (hopne : opc ≠ []) (hop : ∀ c ∈ opc, isOpChar c = true)
    (hdsne : ds ≠ []) (hds : ∀ c ∈ ds, c.isDigit = true)
    (htailsp : tail.takeWhile isPySpace = []) :
    reMatchTime (opc ++ ' ' :: (ds ++ ' ' :: tail)) =
      (if ("second".data).isPrefixOf tail then some (opc, digitsToNat ds, 1)
       else if ("minute".data).isPrefixOf tail then some (opc, digitsToNat ds, 60)
       else if ("hour".data).isPrefixOf tail then some (opc, digitsToNat ds, 3600)
       else none) := by
  obtain ⟨d, ds', rfl⟩ := List.exists_cons_of_ne_nil hdsne
  have hdd : d.isDigit = true := hds d (by simp)
  have hdsp : isPySpace d = false := isDigit_not_space hdd
  simp only [reMatchTime]
  rw [takeWhile_append_all _ _ hop, dropWhile_append_all _ _ hop]
  rw [takeWhile_of_head_false isOpChar ' ' _ (by decide)]
  rw [dropWhile_of_head_false isOpChar ' ' _ (by decide)]
  rw [List.dropWhile_cons, if_pos (show isPySpace ' ' = true from by decide)]
  rw [List.cons_append, dropWhile_of_head_false isPySpace d _ hdsp, ← List.cons_append]
  rw [takeWhile_append_all _ _ hds,
    takeWhile_of_head_false Char.isDigit ' ' _ (by decide), List.append_nil]
  rw [dropWhile_append_all _ _ hds]
  rw [List.dropWhile_cons, if_neg (show ¬(Char.isDigit ' ' = true) from by decide)]
  rw [List.dropWhile_cons, if_pos (show isPySpace ' ' = true from by decide)]
  rw [dropWhile_eq_self_of_takeWhile_nil _ htailsp]
  rw [if_neg hopne]
  simp only [List.append_nil]
  rw [if_neg (show ¬(d :: ds' = []) from by simp)]

theorem compareTimeThreshold_rendered (op : CmpOp) (n : ℕ) (u : TimeUnit) (secs : ℤ) :
    compareTimeThreshold (renderTimeCond op n u) secs =
      op.holds (secs : ℚ) ((n * u.mult : ℕ) : ℚ) := by
  obtain ⟨hval, hdig, hne⟩ := natToCharDigits_spec n
  unfold compareTimeThreshold renderTimeCond
  rw [show (String.mk (op.chars ++ ' ' :: natToCharDigits n ++ ' ' :: u.chars ++ ['s'])).data
        = op.chars ++ ' ' :: ((natToCharDigits n ++ ' ' :: (u.chars ++ ['s'])) ++ []) from
      by simp]
  rw [show (natToCharDigits n ++ ' ' :: (u.chars ++ ['s'])) ++ ([] : List Char)
        = natToCharDigits n ++ ' ' :: ((u.chars ++ ['s']) ++ []) from by simp]
  rw [show ((u.chars ++ ['s']) ++ ([] : List Char)) = (u.chars ++ ['s']) from by simp]
  have hlast : isPySpace 's' = false := by decide
  rw [show op.chars ++ ' ' :: (natToCharDigits n ++ ' ' :: (u.chars ++ ['s']))
        = op.chars ++ ' ' :: ((natToCharDigits n ++ ' ' :: u.chars) ++ ['s']) from by simp]
  rw [pyStrip_build _ _ _ op.chars_ne_nil op.chars_opChars hlast]
  rw [show (natToCharDigits n ++ ' ' :: u.chars) ++ ['s']
        = natToCharDigits n ++ ' ' :: (u.chars ++ ['s']) from by simp]
  rw [reMatchTime_build _ _ _ op.chars_ne_nil op.chars_opChars hne hdig
    (by cases u <;> decide)]
  rw [hval]
  cases u
  · rw [if_pos (by decide)]
    have h := compareThreshold_rendered op (n * TimeUnit.mult .second) false secs
    rw [renderCond] at h
    simpa [TimeUnit.mult] using h
  · rw [if_neg (by decide), if_pos (by decide)]
    have h := compareThreshold_rendered op (n * TimeUnit.mult .minute) false secs
    rw [renderCond] at h
    simpa [TimeUnit.mult] using h
  · rw [if_neg (by decide), if_neg (by decide), if_pos (by decide)]
    have h := compareThreshold_rendered op (n * TimeUnit.mult .hour) false secs
    rw [renderCond] at h
    simpa [TimeUnit.mult] using h

/-- C3: the threshold grammar. Every condition string of the form
"comparison operator, numeric threshold, optional trailing %" compares
the value per the operator (the `%` being numerically ignored); a
review-time condition with a trailing `second(s)`/`minute(s)`/`hour(s)`
unit is normalized to seconds before comparison; a string that does not
parse as operator + number never matches — in particular `"> 70%"`
against 85, `"< 50"` against 30 and `"== 10"` against 10 all match,
while `"~~bogus"` never matches any value. -/
theorem threshold_grammar_spec :
    (∀ (op : CmpOp) (n : ℕ) (pct : Bool) (v : ℚ),
        compareThreshold (renderCond op n pct) v = op.holds v (n : ℚ)) ∧
    (∀ (op : CmpOp) (n : ℕ) (u : TimeUnit) (secs : ℤ),
        compareTimeThreshold (renderTimeCond op n u) secs =
          op.holds (secs : ℚ) ((n * u.mult : ℕ) : ℚ)) ∧
    (∀ (s : String) (v : ℚ), reMatchThreshold (pyStrip s.data) = none →
        compareThreshold s v = false) ∧
    (compareThreshold "> 70%" 85 = true ∧ compareThreshold "< 50" 30 = true ∧
     compareThreshold "== 10" 10 = true ∧ ∀ v : ℚ, compareThreshold "~~bogus" v = false) := by
  have hmal : ∀ (s : String) (v : ℚ), reMatchThreshold (pyStrip s.data) = none →
      compareThreshold s v = false := by
    intro s v h
    unfold compareThreshold
    rw [h]
  refine ⟨compareThreshold_rendered, compareTimeThreshold_rendered, hmal, ?_, ?_, ?_, ?_⟩
  · have e : renderCond CmpOp.gt 70 true = "> 70%" := by decide
    have h := compareThreshold_rendered CmpOp.gt 70 true 85
    rw [e] at h
    rw [h]
    decide
  · have e : renderCond CmpOp.lt 50 false = "< 50" := by decide
    have h := compareThreshold_rendered CmpOp.lt 50 false 30
    rw [e] at h
    rw [h]
    decide
  · have e : renderCond CmpOp.eqq 10 false = "== 10" := by decide
    have h := compareThreshold_rendered CmpOp.eqq 10 false 10
    rw [e] at h
    rw [h]
    decide
  · intro v
    exact hmal "~~bogus" v (by decide)

theorem threshold_grammar_spec_witness : compareThreshold "~~bogus" 0 = false :=
  threshold_grammar_spec.2.2.1 "~~bogus" 0 (by decide)

/-- C5 counterexample: `evaluate_commit` copies `max_ai_confidence` and
`ai_percentage` verbatim from the input dictionary, so the
`CommitAnalysis` it constructs need not satisfy the invariant: with one
file of probability 1 and a dict `max_ai_confidence` of 0, the
constructed analysis has non-empty files but its `max_ai_confidence` is
not the maximum of the files' probabilities. -/
theorem evaluate_commit_breaks_invariant :
    ¬ commitInvariant (commitAnalysisOfDict cBadAnalysisDict) := by
  intro h
  have h2 := h (by decide)
  exact absurd h2.1 (by decide)

theorem foldl_max_mem (l : List ℚ) (m : ℚ) :
    l.foldl (fun acc x => if x > acc then x else acc) m = m ∨
    l.foldl (fun acc x => if x > acc then x else acc) m ∈ l := by
  induction l generalizing m with
  | nil => exact Or.inl rfl
  | cons x xs ih =>
    rw [List.foldl_cons]
    rcases ih (if x > m then x else m) with h | h
    · rw [h]
      split_ifs with hx
      · exact Or.inr (by simp)
      · exact Or.inl rfl
    · exact Or.inr (List.mem_cons_of_mem _ h)

theorem foldl_max_le (l : List ℚ) (m : ℚ) :
    m ≤ l.foldl (fun acc x => if x > acc then x else acc) m ∧
    ∀ x ∈ l, x ≤ l.foldl (fun acc x => if x > acc then x else acc) m := by
  induction l generalizing m with
  | nil => exact ⟨le_refl m, by simp⟩
  | cons y ys ih =>
    rw [List.foldl_cons]
    obtain ⟨h1, h2⟩ := ih (if y > m then y else m)
    have hm : m ≤ if y > m then y else m := by
      split_ifs with h
      · exact le_of_lt h
      · exact le_refl m
    have hy : y ≤ if y > m then y else m := by
      split_ifs with h
      · exact le_refl y
      · exact not_lt.mp h
    refine ⟨le_trans hm h1, ?_⟩
    intro x hx
    rcases List.mem_cons.mp hx with rfl | hx'
    · exact le_trans hy h1
    · exact h2 x hx'

theorem foldl_add_sum (l : List ScanFile) (n : ℕ) :
    l.foldl (fun t f => t + f.lines) n = n + (l.map (fun f => f.lines)).sum := by
  induction l generalizing n with
  | nil => simp
  | cons f fs ih =>
    rw [List.foldl_cons, ih]
    simp only [List.map_cons, List.sum_cons]
    omega

theorem foldl_ai_sum (l : List ScanFile) (n : ℕ) :
    l.foldl (fun t f => if f.ai_probability > (7/10 : ℚ) then t + f.lines else t) n =
      n + ((l.filter (fun f => f.ai_probability > (7/10 : ℚ))).map (fun f => f.lines)).sum := by
  induction l generalizing n with
  | nil => simp
  | cons f fs ih =>
    rw [List.foldl_cons]
    by_cases hf : f.ai_probability > (7/10 : ℚ)
    · rw [if_pos hf, ih]
      rw [List.filter_cons,
        if_pos (show decide (f.ai_probability > (7/10 : ℚ)) = true from by simpa using hf)]
      simp only [List.map_cons, List.sum_cons]
      omega
    · rw [if_neg hf, ih]
      rw [List.filter_cons,
        if_neg (show ¬(decide (f.ai_probability > (7/10 : ℚ)) = true) from by
          simpa using hf)]

theorem aiLines_cons (e : FileEntry) (l : List FileEntry) :
    aiLines (e :: l) =
      (if e.status = some "ai-generated" then e.lines_changed else 0) + aiLines l := by
  unfold aiLines
  rw [List.filter_cons]
  by_cases he : e.status = some "ai-generated"
  · rw [if_pos (show decide (e.status = some "ai-generated") = true from by simpa using he),
      if_pos he]
    simp
  · rw [if_neg (show ¬(decide (e.status = some "ai-generated") = true) from by simpa using he),
      if_neg he]
    simp

theorem aiLines_scan (files : List ScanFile) :
    aiLines (files.map (fun f =>
      ({ path := f.path, ai_confidence := f.ai_probability, lines_changed := f.lines,
         status := some (if f.ai_probability > (7/10 : ℚ) then "ai-generated"
                         else "human-written") } : FileEntry))) =
      ((files.filter (fun f => f.ai_probability > (7/10 : ℚ))).map (fun f => f.lines)).sum := by
  induction files with
  | nil => rfl
  | cons f fs ih =>
    rw [List.map_cons, aiLines_cons, ih, List.filter_cons]
    by_cases hf : f.ai_probability > (7/10 : ℚ)
    · rw [if_pos hf]
      rw [if_pos (show (some "ai-generated" : Option String) = some "ai-generated" from rfl)]
      rw [if_pos (show decide (f.ai_probability > (7/10 : ℚ)) = true from by simpa using hf)]
      simp
    · rw [if_neg hf]
      rw [if_neg (show ¬((some "human-written" : Option String) = some "ai-generated") from
        by decide)]
      rw [if_neg (show ¬(decide (f.ai_probability > (7/10 : ℚ)) = true) from by simpa using hf)]
      simp

/-- C5 (amended): the invariant holds for every `CommitAnalysis` aggregated
by the `scan` endpoint from per-file probabilities and line counts (the
probabilities being nonnegative and each file contributing at least one
line, as `analyze_code` outputs and `len(content.split('\n'))`
guarantee); `evaluate_commit` itself copies the aggregate fields
verbatim and does not establish the invariant
(`evaluate_commit_breaks_invariant`). -/
theorem scanAggregate_invariant (files : List ScanFile) (rt : Option ℤ)
    (hpos : ∀ f ∈ files, 0 ≤ f.ai_probability)
    (hlines : ∀ f ∈ files, 1 ≤ f.lines) :
    commitInvariant (scanAggregate files rt) := by
  intro hne
  have hfne : files ≠ [] := by
    intro h
    subst h
    simp [scanAggregate] at hne
  have hconf_map : (scanAggregate files rt).files.map (fun f => f.ai_confidence) =
      files.map (fun f => f.ai_probability) := by
    simp only [scanAggregate, List.map_map]
    rfl
  have hmax_fold : (scanAggregate files rt).max_ai_confidence =
      (files.map (fun f => f.ai_probability)).foldl
        (fun acc x => if x > acc then x else acc) 0 := by
    simp [scanAggregate, List.foldl_map]
  have hub : ∀ f ∈ (scanAggregate files rt).files,
      f.ai_confidence ≤ (scanAggregate files rt).max_ai_confidence := by
    intro f hf
    simp only [scanAggregate, List.mem_map] at hf
    obtain ⟨g, hg, rfl⟩ := hf
    rw [hmax_fold]
    exact (foldl_max_le _ 0).2 g.ai_probability (List.mem_map_of_mem _ hg)
  have hmem : (scanAggregate files rt).max_ai_confidence ∈
      (scanAggregate files rt).files.map (fun f => f.ai_confidence) := by
    rw [hconf_map, hmax_fold]
    rcases foldl_max_mem (files.map (fun f => f.ai_probability)) 0 with h | h
    · obtain ⟨f0, fs0, rfl⟩ := List.exists_cons_of_ne_nil hfne
      have hub0 := (foldl_max_le ((f0 :: fs0).map (fun f => f.ai_probability)) 0).2
        f0.ai_probability (by simp)
      have hlb0 := hpos f0 (by simp)
      have h0 : f0.ai_probability = 0 := le_antisymm (h ▸ hub0) hlb0
      rw [h, ← h0]
      simp
    · exact h
  have htotal : (files.foldl (fun t f => t + f.lines) 0) =
      (files.map (fun f => f.lines)).sum := by
    rw [foldl_add_sum, Nat.zero_add]
  have htotal_pos : 0 < files.foldl (fun t f => t + f.lines) 0 := by
    rw [htotal]
    obtain ⟨f0, fs0, rfl⟩ := List.exists_cons_of_ne_nil hfne
    have := hlines f0 (by simp)
    simp only [List.map_cons, List.sum_cons]
    omega
  have htl : totalLines (scanAggregate files rt).files =
      files.foldl (fun t f => t + f.lines) 0 := by
    rw [htotal]
    unfold totalLines
    simp only [scanAggregate, List.map_map]
    rfl
  have hai : aiLines (scanAggregate files rt).files =
      files.foldl (fun t f => if f.ai_probability > (7/10 : ℚ) then t + f.lines else t) 0 := by
    rw [foldl_ai_sum, Nat.zero_add]
    exact aiLines_scan files
  refine ⟨hmem, hub, ?_⟩
  show (if 0 < files.foldl (fun t f => t + f.lines) 0 then _ else _) = _
  rw [if_pos htotal_pos, hai, htl]

theorem scanAggregate_invariant_witness :
    commitInvariant (scanAggregate wScanFiles none) :=
  scanAggregate_invariant wScanFiles none (by decide) (by decide)

/-! ## C6: stylometry feature ranges -/

theorem countP_ratio_bounds (k n : ℕ) (hk : k ≤ n) :
    0 ≤ (k : ℚ) / ((max n 1 : ℕ) : ℚ) ∧ (k : ℚ) / ((max n 1 : ℕ) : ℚ) ≤ 1 := by
  have hpos : (0 : ℚ) < ((max n 1 : ℕ) : ℚ) := by
    have : 1 ≤ max n 1 := le_max_right n 1
    exact_mod_cast Nat.lt_of_lt_of_le Nat.zero_lt_one this
  constructor
  · positivity
  · rw [div_le_one hpos]
    have : k ≤ max n 1 := le_trans hk (le_max_left n 1)
    exact_mod_cast this

theorem analyzeNaming_bounds (code : List Char) :
    0 ≤ analyzeNaming code ∧ analyzeNaming code ≤ 1 := by
  simp only [analyzeNaming]
  split_ifs with h
  · norm_num
  · have hlen : 0 < (identifiers code).length := by omega
    have hpos : (0 : ℚ) < ((identifiers code).length : ℚ) := by exact_mod_cast hlen
    constructor
    · positivity
    · rw [div_le_one hpos]
      have hmax : max ((identifiers code).filter isCamelCase).length
          ((identifiers code).filter (fun i => i.contains '_' && pyIslower i)).length ≤
          (identifiers code).length :=
        max_le (List.length_filter_le _ _) (List.length_filter_le _ _)
      exact_mod_cast hmax

theorem analyzeNaming_default (code : List Char)
    (h : (identifiers code).length < 5) : analyzeNaming code = 1/2 := by
  simp only [analyzeNaming]
  rw [if_pos h]

theorem analyzeComments_bounds (lines : List (List Char)) (language : String) :
    0 ≤ analyzeComments lines language ∧ analyzeComments lines language ≤ 1 := by
  simp only [analyzeComments]
  exact countP_ratio_bounds _ _ (List.countP_le_length _)

theorem emptyLineRatio_bounds (lines : List (List Char)) :
    0 ≤ emptyLineRatio lines ∧ emptyLineRatio lines ≤ 1 := by
  simp only [emptyLineRatio]
  exact countP_ratio_bounds _ _ (List.countP_le_length _)

theorem analyzeIndentation_bounds (lines : List (List Char)) :
    0 ≤ analyzeIndentation lines ∧ analyzeIndentation lines ≤ 1 := by
  simp only [analyzeIndentation]
  by_cases h : (indentWidths lines).isEmpty = true
  · rw [if_pos h]
    norm_num
  · rw [if_neg h]
    have hlen : 0 < (indentWidths lines).length := by
      rcases hrw : indentWidths lines with _ | ⟨a, l⟩
      · rw [hrw] at h
        simp at h
      · simp
    have hpos : (0 : ℚ) < ((indentWidths lines).length : ℚ) := by exact_mod_cast hlen
    constructor
    · positivity
    · rw [div_le_one hpos]
      exact_mod_cast List.countP_le_length _

theorem analyzeBoilerplate_bounds (code : List Char) :
    0 ≤ analyzeBoilerplate code ∧ analyzeBoilerplate code ≤ 1 := by
  simp only [analyzeBoilerplate]
  constructor
  · apply le_min
    · apply div_nonneg
      · positivity
      · exact le_trans (by norm_num) (le_max_right _ 1)
    · norm_num
  · exact min_le_right _ 1

/-- C6: for every source text and language hint, `StylometryAnalyzer.analyze`
returns a total `StyleFeatures` record whose `naming_consistency`,
`comment_density`, `indentation_consistency`, `boilerplate_ratio` and
`empty_line_ratio` lie in `[0,1]`, whose `max_nesting_depth` is
nonnegative, and whose line-length standard deviation (the square root
of the stored radicand) is nonnegative; and when the text contains fewer
than 5 identifiers, `naming_consistency` is the neutral default 0.5. -/
theorem analyze_ranges (code : List Char) (language : String) :
    (0 ≤ (analyze code language).naming_consistency ∧
      (analyze code language).naming_consistency ≤ 1) ∧
    (0 ≤ (analyze code language).comment_density ∧
      (analyze code language).comment_density ≤ 1) ∧
    (0 ≤ (analyze code language).indentation_consistency ∧
      (analyze code language).indentation_consistency ≤ 1) ∧
    (0 ≤ (analyze code language).boilerplate_ratio ∧
      (analyze code language).boilerplate_ratio ≤ 1) ∧
    (0 ≤ (analyze code language).empty_line_ratio ∧
      (analyze code language).empty_line_ratio ≤ 1) ∧
    0 ≤ Real.sqrt ((analyze code language).line_length_variance_sq : ℝ) ∧
    0 ≤ (analyze code language).max_nesting_depth ∧
    ((identifiers code).length < 5 →
      (analyze code language).naming_consistency = 1/2) := by
  refine ⟨analyzeNaming_bounds code, analyzeComments_bounds _ language,
    analyzeIndentation_bounds _, analyzeBoilerplate_bounds code,
    emptyLineRatio_bounds _, Real.sqrt_nonneg _, Nat.zero_le _, ?_⟩
  intro h
  exact analyzeNaming_default code h

theorem analyze_ranges_witness :
    (identifiers "".data).length < 5 ∧
    (analyze "".data "auto").naming_consistency = 1/2 :=
  ⟨by decide, (analyze_ranges "".data "auto").2.2.2.2.2.2.2 (by decide)⟩

/-! ## C7: path glob matching -/

/-- C7 counterexample: the source's `fnmatch`-based matching is not limited
to a path segment — `*` crosses `/`. Pattern `src/auth/**` matches the
multi-segment path `src/auth/a/b.ts` under `fnmatch` (and
`_match_paths` keeps the file), while the spec-modelled
"within a segment" semantics (`segFnmatch`) rejects it. -/
theorem glob_not_segment_limited :
    fnmatchB "src/auth/a/b.ts" "src/auth/**" = true ∧
    segFnmatch "src/auth/a/b.ts" "src/auth/**" = false ∧
    matchPaths ["src/auth/**"] [⟨"src/auth/a/b.ts", 0, 0, none⟩] = ["src/auth/a/b.ts"] := by
  refine ⟨by decide, by decide, by decide⟩

/-- C7 (amended): path globs are matched with `fnmatch` semantics, in which
`*` matches any run of characters including `/` (and `**` therefore
behaves like `*`), so `src/auth/**` matches `src/auth/login.ts` and
`**/middleware/auth*` matches `app/middleware/auth.ts`; when globs are
declared and no file matches, the policy does not trigger; when no
globs are declared (and the threshold conditions hold) every file of
the analysis is matched. -/
theorem path_glob_matching (p : Policy) (a : CommitAnalysis) :
    (fnmatchB "src/auth/login.ts" "src/auth/**" = true ∧
     fnmatchB "app/middleware/auth.ts" "**/middleware/auth*" = true) ∧
    (p.trigger.paths ≠ [] → matchPaths p.trigger.paths a.files = [] →
      (evaluatePolicy p a).triggered = false) ∧
    (p.trigger.paths = [] → triggerMatches p.trigger a = true →
      (evaluatePolicy p a).matched_files = a.files.map (fun f => f.path)) := by
  refine ⟨⟨by decide, by decide⟩, ?_, ?_⟩
  · intro hp hm
    unfold evaluatePolicy
    cases ht : triggerMatches p.trigger a
    · simp
    · have hpe : p.trigger.paths.isEmpty = false := by
        simp [List.isEmpty_iff, hp]
      rw [if_neg (by simp)]
      rw [if_pos (by simp [hpe, hm])]
  · intro hp ht
    unfold evaluatePolicy
    rw [ht]
    have hpe : p.trigger.paths.isEmpty = true := by simp [hp]
    rw [if_neg (by simp)]
    rw [if_neg (by simp [hpe])]
    rw [if_pos hpe]
    split <;> rfl

theorem path_glob_matching_witness :
    (evaluatePolicy wPolicyAuthPaths wAnalysisDocs).triggered = false ∧
    (evaluatePolicy wPolicySecrets wAnalysisClean).matched_files = ["src/auth/login.ts"] := by
  constructor
  · exact (path_glob_matching wPolicyAuthPaths wAnalysisDocs).2.1 (by decide) (by decide)
  · exact (path_glob_matching wPolicySecrets wAnalysisClean).2.2 rfl (by decide)

theorem parsePolicies_fails_iff_unknown_action_witness :
    parsePolicies wBadConfig = none :=
  (parsePolicies_fails_iff_unknown_action wBadConfig).mpr
    ⟨{ name := some "x", description := none, trigger := none, paths := none,
       action := some "frobnicate", message := none, reviewers := none },
     by simp [wBadConfig], by decide⟩

end VibeGuard
